import Mathlib

/-!
Shallow embedding of the BB19 randomization pipeline.

The embedding follows `IIIA_Distribution.py` (the trial runner `analyzer`)
and `IIIB_Aggregation.py` (the aggregator main block).  A panel row of
`prd.dta` carries the fiscal year `fyear`, the subperiod `prd`, the binary
news indicator `g` and the outcome `car_prd`.  Missing floating point
values (NaN) are modelled with `Option`; the NumPy generator is modelled
as an abstract deterministic stream: seeding with `s` and drawing `ll`
binary values yields the first `ll` entries of the stream at seed `s`,
which is exactly the reproducibility contract of `np.random.seed` followed
by `np.random.randint(2, size=ll)`.
-/

attribute [local semireducible] Rat.add Rat.mul Rat.sub Rat.inv Rat.ofScientific

namespace BB19

/-- One row of the analysis panel `../temp/prd.dta` as read by `analyzer`. -/
structure Row where
  fyear : Int
  prd : Int
  g : Bool
  car_prd : ℚ
deriving DecidableEq

/-- A panel row after `analyzer` has added the `g_rd` column; `none` models
the NaN the column is initialised with and keeps where no assignment lands. -/
structure RowR where
  fyear : Int
  prd : Int
  g : Bool
  car_prd : ℚ
  g_rd : Option Bool
deriving DecidableEq

/-- Stratum key: a (fyear, prd) pair. -/
abbrev Key := Int × Int

/-- Stratum key of a panel row. -/
def keyOf (r : Row) : Key := (r.fyear, r.prd)

/-- Stratum key of an augmented panel row. -/
def keyOfR (r : RowR) : Key := (r.fyear, r.prd)

/-- Values of a column in order of first appearance, as `Series.unique`
returns them in `df['fyear'].unique()`. -/
def uniqFA : List Int → List Int
  | [] => []
  | x :: xs => x :: (uniqFA xs).filter (fun y => y ≠ x)

/-- Position of a value in a list, as `enumerate` numbers it. -/
def rankOf (l : List Int) (x : Int) : Nat := l.findIdx (fun y => y == x)

/-- The per-stratum seed `int(nn)*100 + ii*10 + jj` of line 33 of
`IIIA_Distribution.py`. -/
def seedOf (nn ii jj : Nat) : Nat := nn * 100 + ii * 10 + jj

/-- Attach a `g_rd` value to a panel row. -/
def toRowR (r : Row) (b : Option Bool) : RowR :=
  ⟨r.fyear, r.prd, r.g, r.car_prd, b⟩

/-- Boolean mask `(df['fyear'] == fy) & (df['prd'] == p)` on a panel row. -/
def sameStratum (fy p : Int) (r : Row) : Bool := r.fyear == fy && r.prd == p

/-- The same mask on an augmented row. -/
def sameStratumR (fy p : Int) (r : RowR) : Bool := r.fyear == fy && r.prd == p

/-- Core of the double relabeling loop of `analyzer` (lines 28 to 37).  The
loop walks the strata; a row receives the entry of the stratum random
vector at its position among the rows of its stratum, the vector being the
stream at seed `seedOf nn ii jj` where `ii` is the rank of the fiscal year
in `uniq` and `jj` is `prd - 1` (the index of `prd` in `[1, 2, 3]`).  Rows
whose `prd` lies outside `[1, 2, 3]` are touched by no loop iteration and
keep the NaN the column started with.  `pre` accumulates the rows already
passed, so that the position within the stratum is its count there. -/
def assignAux (stream : Nat → Nat → Bool) (nn : Nat) (uniq : List Int) :
    List Row → List Row → List RowR
  | _, [] => []
  | pre, r :: rest =>
    let b : Option Bool :=
      if r.prd = 1 ∨ r.prd = 2 ∨ r.prd = 3 then
        some (stream (seedOf nn (rankOf uniq r.fyear) (r.prd - 1).toNat)
          ((pre.filter (sameStratum r.fyear r.prd)).length))
      else none
    toRowR r b :: assignAux stream nn uniq (pre ++ [r]) rest

/-- The relabeling loop of `analyzer`: add the `g_rd` column to the panel. -/
def assign_g_rd (stream : Nat → Nat → Bool) (nn : Nat) (df : List Row) :
    List RowR :=
  assignAux stream nn (uniqFA (df.map (·.fyear))) [] df

/-- Lexicographic order on stratum keys, the order pandas sorts a
two-level (fyear, prd) index by. -/
def keyLe (a b : Key) : Prop := a.1 < b.1 ∨ (a.1 = b.1 ∧ a.2 ≤ b.2)

instance : DecidableRel keyLe := fun a b => by
  unfold keyLe; exact inferInstance

instance : IsTrans Key keyLe := by
  constructor
  intro a b c hab hbc
  unfold keyLe at *
  omega

instance : IsTotal Key keyLe := by
  constructor
  intro a b
  unfold keyLe
  omega

instance : IsAntisymm Key keyLe := by
  constructor
  intro a b hab hba
  unfold keyLe at *
  have h1 : a.1 = b.1 := by omega
  have h2 : a.2 = b.2 := by omega
  exact Prod.ext h1 h2

/-- Sorted unique keys, as a pandas groupby or index union produces them. -/
def sortKeys (l : List Key) : List Key := List.insertionSort keyLe l.dedup

/-- Rows of a group: subset selected by `p`, restricted to stratum `k`. -/
def grp (rows : List RowR) (p : RowR → Bool) (k : Key) : List RowR :=
  rows.filter (fun r => p r && keyOfR r == k)

/-- Per-group arithmetic mean of `car_prd`, as `groupby(...).apply(np.mean)`. -/
def grpMean (rows : List RowR) (p : RowR → Bool) (k : Key) : ℚ :=
  ((grp rows p k).map (·.car_prd)).sum / ((grp rows p k).length : ℚ)

/-- The series `df[sel].groupby(['fyear', 'prd'])['car_prd'].apply(np.mean)`:
one entry per stratum key occurring in the selected subset, keys sorted. -/
def grpSeries (rows : List RowR) (p : RowR → Bool) : List (Key × ℚ) :=
  (sortKeys ((rows.filter p).map keyOfR)).map (fun k => (k, grpMean rows p k))

/-- Association lookup on a keyed series. -/
def alookup {β : Type} (k : Key) : List (Key × β) → Option β
  | [] => none
  | kv :: rest => if kv.1 = k then some kv.2 else alookup k rest

/-- Aligned subtraction of two series, as pandas subtraction of two Series:
the index is the sorted union of the two indexes and a key present on only
one side yields NaN (`none`). -/
def alignSub (s1 s2 : List (Key × ℚ)) : List (Key × Option ℚ) :=
  (sortKeys (s1.map Prod.fst ++ s2.map Prod.fst)).map fun k =>
    (k, match alookup k s1, alookup k s2 with
        | some a, some b => some (a - b)
        | _, _ => none)

/-- Selector `df['g'] == 1`. -/
def gT (r : RowR) : Bool := r.g

/-- Selector `df['g'] == 0`. -/
def gF (r : RowR) : Bool := !r.g

/-- Selector `df['g_rd'] == 1`; NaN compares unequal to 1. -/
def gr1 (r : RowR) : Bool := r.g_rd == some true

/-- Selector `df['g_rd'] == 0`; NaN compares unequal to 0. -/
def gr0 (r : RowR) : Bool := r.g_rd == some false

/-- The actual spread series `g_car_prd` (lines 40 to 41). -/
def g_car_prd (rows : List RowR) : List (Key × Option ℚ) :=
  alignSub (grpSeries rows gT) (grpSeries rows gF)

/-- The hypothetical spread series `g_rd_car_prd` (lines 43 to 44). -/
def g_rd_car_prd (rows : List RowR) : List (Key × Option ℚ) :=
  alignSub (grpSeries rows gr1) (grpSeries rows gr0)

/-- Elementwise `>` with NaN semantics: any comparison with NaN is False. -/
def optGt : Option ℚ → Option ℚ → Bool
  | some a, some b => decide (b < a)
  | _, _ => false

/-- Series comparison `s1 > s2`.  pandas raises unless the two Series are
identically labelled, hence the `none` branch; otherwise the result is the
elementwise comparison carried on the common index. -/
def seriesGt (s1 s2 : List (Key × Option ℚ)) :
    Option (List (Key × Bool)) :=
  if s1.map Prod.fst = s2.map Prod.fst then
    some ((s1.zip s2).map fun pr => (pr.1.1, optGt pr.1.2 pr.2.2))
  else none

/-- A trial result artifact: the CSV `../temp/<nn>.csv` with its boolean
column name and one (fyear, prd, bool) row per series entry. -/
structure Artifact where
  fname : String
  boolcol : String
  rows : List (Key × Bool)
deriving DecidableEq, Repr

/-- The trial runner `analyzer(nn)` of `IIIA_Distribution.py`: relabel,
compute both spread series, compare them and emit the artifact.  `none`
models the run aborting with an exception (no artifact written). -/
def analyzer (stream : Nat → Nat → Bool) (nn : Nat) (df : List Row) :
    Option Artifact :=
  let rows := assign_g_rd stream nn df
  match seriesGt (g_car_prd rows) (g_rd_car_prd rows) with
  | some tbl => some ⟨toString nn ++ ".csv", "bool_" ++ toString nn, tbl⟩
  | none => none

/-- The artifacts a run of `analyzer(nn)` writes: exactly the one CSV on
success, nothing when the run aborts. -/
def analyzerWrites (stream : Nat → Nat → Bool) (nn : Nat) (df : List Row) :
    List Artifact :=
  (analyzer stream nn df).toList

/-- A presentation cell of the final table `t2c.csv`: NaN, the textual
sentinel `$<$0.001`, or a rounded numeric value. -/
inductive Cell where
  | undef : Cell
  | sent : Cell
  | val : ℚ → Cell
deriving DecidableEq, Repr

/-- Floor of a rational, through floor division of the numerator. -/
def ratFloor (q : ℚ) : Int := Int.fdiv q.num (q.den : Int)

/-- Round a rational to the nearest integer, ties to even, the rounding
rule of `np.round` that `DataFrame.round` delegates to. -/
def rhe (q : ℚ) : Int :=
  let f := ratFloor q
  let r := q - (f : ℚ)
  if r < 1 / 2 then f
  else if 1 / 2 < (r : ℚ) then f + 1
  else if f % 2 = 0 then f else f + 1

/-- The transform `df.round(3)` on one cell. -/
def round3 (q : ℚ) : ℚ := ((rhe (q * 1000) : ℚ)) / 1000

/-- One cell after `df = df.round(3)` followed by
`df[df < .001] = "$<$0.001"`: NaN stays NaN (NaN compares False), a
rounded value strictly below 0.001 becomes the sentinel. -/
def displayCell : Option ℚ → Cell
  | none => Cell.undef
  | some q => if round3 q < 1 / 1000 then Cell.sent else Cell.val (round3 q)

/-- Numeric value of a boolean indicator under `mean`. -/
def boolQ (b : Bool) : ℚ := if b then 1 else 0

/-- Per-stratum aggregation of `IIIB_Aggregation.py` line 25 and 26: the
artifacts are concatenated column-wise on the (fyear, prd) index with an
outer join, so an artifact lacking the key contributes NaN there, and
`mean(axis=1)` skips NaN entries; a row of NaN only yields NaN. -/
def aggMean (arts : List Artifact) (k : Key) : Option ℚ :=
  let vs := arts.filterMap (fun a => alookup k a.rows)
  if vs.isEmpty then none
  else some ((vs.map boolQ).sum / (vs.length : ℚ))

/-- Sorted unique integers, for the unstacked row and column labels. -/
def sortInts (l : List Int) : List Int :=
  List.insertionSort (fun a b : Int => a ≤ b) l.dedup

/-- The aggregator main block: report the number of discovered artifacts,
then concatenate, average, unstack to a (fyear) × (prd) table and format.
The `Except.error` branches model the uncaught pandas exceptions: an empty
concatenation raises, and renaming the unstacked columns to exactly
`['fyear', 'stat1', 'stat2', 'stat3']` raises unless exactly three
subperiod columns came out of the unstack. -/
def aggregatorMain (arts : List Artifact) :
    Nat × Except String (List (Int × List Cell)) :=
  (arts.length,
    if arts.isEmpty then Except.error "No objects to concatenate" else
    let keys := sortKeys ((arts.map (fun a => a.rows.map Prod.fst)).flatten)
    let fys := sortInts (keys.map Prod.fst)
    let prds := sortInts (keys.map Prod.snd)
    if prds.length = 3 then
      Except.ok (fys.map fun fy =>
        (fy, prds.map fun p => displayCell (aggMean arts (fy, p))))
    else Except.error "Length mismatch")

/-- Spread of a stratum in the actual spread series, flattened: `none` both
when the key is absent from the series and when it carries NaN. -/
def spreadAt (rows : List RowR) (k : Key) : Option ℚ :=
  (alookup k (g_car_prd rows)).join

/-- Spread of a stratum in the hypothetical spread series, flattened. -/
def hypoSpreadAt (rows : List RowR) (k : Key) : Option ℚ :=
  (alookup k (g_rd_car_prd rows)).join

/-- Trial outcome in the words of the aggregation claim: the indicator of a
stratum is defined only when both spreads are defined, and a trial whose
stratum is degenerate reports no value at all for it. -/
def claimOutcome (stream : Nat → Nat → Bool) (nn : Nat) (df : List Row)
    (k : Key) : Option Bool :=
  let rows := assign_g_rd stream nn df
  match spreadAt rows k, hypoSpreadAt rows k with
  | some a, some b => some (decide (b < a))
  | _, _ => none

/-- Per-stratum aggregate in the words of the aggregation claim: the mean
over exactly the trials that reported a defined indicator for the stratum. -/
def claimAggMean (stream : Nat → Nat → Bool) (df : List Row)
    (trials : List Nat) (k : Key) : Option ℚ :=
  let vs := trials.filterMap (fun nn => claimOutcome stream nn df k)
  if vs.isEmpty then none
  else some ((vs.map boolQ).sum / (vs.length : ℚ))

/-- A constant generator stream, for concrete runs. -/
def sT (_ _ : Nat) : Bool := true

/-- An alternating generator stream, for concrete runs. -/
def sA (s i : Nat) : Bool := (s + i) % 2 == 0

/-- The same alternating stream with the addition flipped. -/
def sB (s i : Nat) : Bool := (i + s) % 2 == 0

/-- A concrete panel whose single stratum (2000, 1) carries only good news
(`g` constantly 1): the bad news group is empty, so the actual spread of
the stratum is undefined in every trial. -/
def P2 : List Row := [⟨2000, 1, true, 1⟩, ⟨2000, 1, true, 2⟩]

/-- A concrete panel with eleven fiscal years 1970 to 1980, one row per
year in subperiod 1, within the 1970 to 2020 query window of the sample
builder. -/
def panelC1 : List Row :=
  [⟨1970, 1, true, 1⟩, ⟨1971, 1, true, 1⟩, ⟨1972, 1, true, 1⟩,
   ⟨1973, 1, true, 1⟩, ⟨1974, 1, true, 1⟩, ⟨1975, 1, true, 1⟩,
   ⟨1976, 1, true, 1⟩, ⟨1977, 1, true, 1⟩, ⟨1978, 1, true, 1⟩,
   ⟨1979, 1, true, 1⟩, ⟨1980, 1, true, 1⟩]

/-- A concrete panel with a row whose subperiod 4 lies outside the
hardcoded loop range `[1, 2, 3]`. -/
def P10 : List Row :=
  [⟨2001, 1, true, 3⟩, ⟨2001, 1, false, 5⟩, ⟨2001, 4, true, 7⟩]

/-- A concrete relabeled panel with both news groups represented in the
stratum (2000, 1). -/
def RRc : List RowR :=
  [⟨2000, 1, true, 1, some true⟩, ⟨2000, 1, false, 3, some false⟩]

lemma assignAux_g_rd (s : Nat → Nat → Bool) (nn : Nat) (u : List Int) :
    ∀ (df pre : List Row), ∀ rr ∈ assignAux s nn u pre df,
      rr.g_rd.isSome ↔ (rr.prd = 1 ∨ rr.prd = 2 ∨ rr.prd = 3)
  | [], _ => by
    intro rr h
    simp [assignAux] at h
  | r :: rest, pre => by
    intro rr h
    rw [assignAux] at h
    rcases List.mem_cons.mp h with h1 | h2
    · subst h1
      by_cases hp : r.prd = 1 ∨ r.prd = 2 ∨ r.prd = 3
      · simp [toRowR, hp]
      · simp [toRowR, hp]
    · exact assignAux_g_rd s nn u rest (pre ++ [r]) rr h2

/-- C1, counterexample.  The seed formula collides across trials as soon
as a period rank reaches 10: the stratum of rank 10 in trial 0 and the
stratum of rank 0 in trial 1 share seed 100, and the rank 10 arises for a
panel with eleven fiscal years, well inside the 1970 to 2020 window the
sample builder queries. -/
theorem seedOf_not_injective :
    seedOf 0 10 0 = seedOf 1 0 0 ∧
    ((0, 10, 0) : Nat × Nat × Nat) ≠ (1, 0, 0) ∧
    rankOf (uniqFA (panelC1.map (·.fyear))) 1980 = 10 := by
  decide

/-- C1, amended.  The seed derivation is injective on the range the claim
names provided the period rank additionally stays below 10: distinct
(trial, period rank, subperiod rank) triples then derive distinct seeds. -/
theorem seedOf_injective_below_rank_ten
    (nn nn2 ii ii2 jj jj2 : Nat)
    (h1 : nn ≤ 9999) (h2 : nn2 ≤ 9999)
    (h3 : ii < 10) (h4 : ii2 < 10) (h5 : jj < 3) (h6 : jj2 < 3)
    (he : seedOf nn ii jj = seedOf nn2 ii2 jj2) :
    nn = nn2 ∧ ii = ii2 ∧ jj = jj2 := by
  unfold seedOf at he
  omega

/-- Witness for the amended C1 at a concrete triple. -/
theorem seedOf_injective_below_rank_ten_witness :
    7 = 7 ∧ 3 = 3 ∧ 2 = 2 :=
  seedOf_injective_below_rank_ten 7 7 3 3 2 2 (by decide) (by decide)
    (by decide) (by decide) (by decide) (by decide) rfl

/-- C3.  The trial runner is deterministic: its output is a pure function
of the trial index, the panel and the seeded generator, so two runs with
generators that agree as functions of the seed produce identical
artifacts. -/
theorem analyzer_deterministic (s1 s2 : Nat → Nat → Bool) (nn : Nat)
    (df : List Row) (h : ∀ a b, s1 a b = s2 a b) :
    analyzer s1 nn df = analyzer s2 nn df := by
  have hs : s1 = s2 := funext fun a => funext fun b => h a b
  rw [hs]

/-- Witness for C3: two syntactically different but pointwise equal
generators produce the same artifact on a concrete panel. -/
theorem analyzer_deterministic_witness :
    analyzer sA 0 P2 = analyzer sB 0 P2 :=
  analyzer_deterministic sA sB 0 P2 (fun a b => by
    simp [sA, sB, Nat.add_comm])

/-- C5, counterexample.  With zero discovered artifacts the aggregator
reports the count but then fails fatally: the empty concatenation raises,
and no summary table of any shape is produced. -/
theorem aggregator_empty_fatal :
    aggregatorMain [] = (0, Except.error "No objects to concatenate") :=
  rfl

/-- C5, amended.  The aggregator always reports the number of discovered
artifacts, and on zero artifacts it terminates with the uncaught
concatenation error instead of an empty table. -/
theorem aggregator_reports_count_and_errors_on_empty
    (arts : List Artifact) :
    (aggregatorMain arts).1 = arts.length ∧
    (arts = [] →
      (aggregatorMain arts).2 = Except.error "No objects to concatenate") := by
  constructor
  · rfl
  · intro h
    subst h
    rfl

/-- Witness for the amended C5 at the empty artifact list. -/
theorem aggregator_reports_count_and_errors_on_empty_witness :
    (aggregatorMain []).2 = Except.error "No objects to concatenate" :=
  (aggregator_reports_count_and_errors_on_empty []).2 rfl

/-- C6.  Presentation formatting: every defined cell is rounded to three
decimals first and compared to 0.001 after; a true mean of 0.0005 rounds
to 0 (ties to even) and renders as the sentinel, a mean of 0.1234 renders
as 0.123, and a mean of 0.00051, although below 0.001 before rounding,
rounds up to 0.001 and is not replaced. -/
theorem summary_rounding_sentinel :
    displayCell (some (1 / 2000)) = Cell.sent ∧
    displayCell (some (1234 / 10000)) = Cell.val (123 / 1000) ∧
    displayCell (some (51 / 100000)) = Cell.val (1 / 1000) ∧
    ∀ q : ℚ, displayCell (some q) =
      if round3 q < 1 / 1000 then Cell.sent else Cell.val (round3 q) :=
  ⟨by decide, by decide, by decide, fun q => rfl⟩

/-- C10.  A row whose subperiod lies outside the hardcoded set {1, 2, 3}
is touched by no iteration of the relabeling loop: its `g_rd` stays NaN,
and the row is selected by neither side of the hypothetical spread. -/
theorem g_rd_none_outside_subperiods (stream : Nat → Nat → Bool) (nn : Nat)
    (df : List Row) :
    ∀ rr ∈ assign_g_rd stream nn df,
      rr.prd ≠ 1 → rr.prd ≠ 2 → rr.prd ≠ 3 →
      rr.g_rd = none ∧ gr1 rr = false ∧ gr0 rr = false := by
  intro rr hmem h1 h2 h3
  have hiff := assignAux_g_rd stream nn _ df [] rr hmem
  have hno : ¬ rr.g_rd.isSome = true := by
    rw [hiff]
    tauto
  have hnone : rr.g_rd = none := Option.not_isSome_iff_eq_none.mp hno
  exact ⟨hnone, by simp [gr1, hnone], by simp [gr0, hnone]⟩

lemma filterMap_length_of_isSome {α β : Type} (f : α → Option β) :
    ∀ l : List α, (∀ a ∈ l, (f a).isSome) → (l.filterMap f).length = l.length
  | [], _ => rfl
  | a :: l, h => by
    cases hfa : f a with
    | none =>
      have := h a (List.mem_cons_self a l)
      rw [hfa] at this
      simp at this
    | some b =>
      rw [List.filterMap_cons_some (f := f) hfa]
      simp only [List.length_cons]
      rw [filterMap_length_of_isSome f l
        (fun x hx => h x (List.mem_cons_of_mem a hx))]

lemma sum_boolQ_filterMap (k : Key) :
    ∀ arts : List Artifact, (∀ a ∈ arts, (alookup k a.rows).isSome) →
      ((arts.filterMap (fun a => alookup k a.rows)).map boolQ).sum
        = (arts.countP (fun a => alookup k a.rows == some true) : ℚ)
  | [], _ => by simp
  | a :: arts, h => by
    have ih := sum_boolQ_filterMap k arts
      (fun x hx => h x (List.mem_cons_of_mem a hx))
    cases hfa : alookup k a.rows with
    | none =>
      have := h a (List.mem_cons_self a arts)
      rw [hfa] at this
      simp at this
    | some b =>
      rw [List.filterMap_cons_some (f := fun x : Artifact => alookup k x.rows) hfa, List.countP_cons]
      cases b with
      | true => simp [boolQ, ih, hfa, add_comm]
      | false => simp [boolQ, ih, hfa]

/-- C2, counterexample.  On the concrete panel P2, the single stratum is
degenerate (no bad news rows), so trial 0 has an undefined actual spread
and, per the claim, should contribute to neither side of the mean; but
pandas evaluates `NaN > NaN` to False, the artifact records False, and the
aggregator returns a mean of 0 over denominator 1 instead of no value. -/
theorem aggMean_counts_degenerate_as_zero :
    spreadAt (assign_g_rd sT 0 P2) (2000, 1) = none ∧
    claimAggMean sT P2 [0] (2000, 1) = none ∧
    aggMean (analyzerWrites sT 0 P2) (2000, 1) = some 0 :=
  ⟨by decide, by decide, by decide⟩

/-- C2, amended.  The aggregator averages over exactly the trials whose
artifact contains a row for the stratum: every such trial enters the
denominator, a degenerate stratum having been recorded as False and
counted as zero; only strata absent from an artifact are skipped. -/
theorem aggMean_mean_over_reporting_trials (arts : List Artifact) (k : Key)
    (hne : arts ≠ [])
    (h : ∀ a ∈ arts, (alookup k a.rows).isSome) :
    aggMean arts k =
      some ((arts.countP (fun a => alookup k a.rows == some true) : ℚ)
        / (arts.length : ℚ)) := by
  have hlen := filterMap_length_of_isSome (fun a => alookup k a.rows) arts h
  have hsum := sum_boolQ_filterMap k arts h
  have hemp : (arts.filterMap (fun a => alookup k a.rows)).isEmpty = false := by
    cases hl : arts.filterMap (fun a => alookup k a.rows) with
    | nil =>
      rw [hl] at hlen
      exact absurd (List.length_eq_zero.mp hlen.symm) hne
    | cons x xs => rfl
  simp only [aggMean, hemp, Bool.false_eq_true, if_false, hsum, hlen]

/-- Witness for the amended C2: two artifacts reporting the stratum, one
True and one False, average to one half. -/
theorem aggMean_mean_over_reporting_trials_witness :
    aggMean [⟨"0.csv", "bool_0", [((2000, 1), true)]⟩,
             ⟨"1.csv", "bool_1", [((2000, 1), false)]⟩] (2000, 1)
      = some (1 / 2) := by
  have h := aggMean_mean_over_reporting_trials
    [⟨"0.csv", "bool_0", [((2000, 1), true)]⟩,
     ⟨"1.csv", "bool_1", [((2000, 1), false)]⟩] (2000, 1)
    (by decide) (by decide)
  rw [h]
  decide

/-- C4, counterexample.  On the concrete panel P2 the stratum (2000, 1)
has rows of treatment 1 only, yet the trial result contains a row for it
(with value False): one-sided strata are not dropped from the artifact. -/
theorem trial_keys_include_one_sided_stratum :
    analyzer sT 0 P2 = some ⟨"0.csv", "bool_0", [((2000, 1), false)]⟩ ∧
    P2.filter (fun r => !r.g && sameStratum 2000 1 r) = [] ∧
    P2.filter (fun r => r.g && sameStratum 2000 1 r) ≠ [] :=
  ⟨by decide, by decide, by decide⟩

/-- Witness for C10: the subperiod 4 row of the concrete panel keeps NaN. -/
theorem g_rd_none_outside_subperiods_witness :
    (⟨2001, 4, true, 7, none⟩ : RowR) ∈ assign_g_rd sA 0 P10 ∧
    (⟨2001, 4, true, 7, none⟩ : RowR).g_rd = none ∧
    gr1 ⟨2001, 4, true, 7, none⟩ = false ∧
    gr0 ⟨2001, 4, true, 7, none⟩ = false := by
  refine ⟨by decide, ?_⟩
  have h := g_rd_none_outside_subperiods sA 0 P10 ⟨2001, 4, true, 7, none⟩
    (by decide) (by decide) (by decide) (by decide)
  exact ⟨h.1, h.2.1, h.2.2⟩

lemma mem_sortKeys {k : Key} {l : List Key} : k ∈ sortKeys l ↔ k ∈ l := by
  unfold sortKeys
  rw [List.mem_insertionSort]
  exact List.mem_dedup

lemma nodup_sortKeys (l : List Key) : (sortKeys l).Nodup :=
  ((List.perm_insertionSort keyLe l.dedup).nodup_iff).mpr (List.nodup_dedup l)

lemma sorted_sortKeys (l : List Key) : List.Sorted keyLe (sortKeys l) :=
  List.sorted_insertionSort keyLe l.dedup

lemma sortKeys_eq_of_mem_iff {l1 l2 : List Key} (h : ∀ k, k ∈ l1 ↔ k ∈ l2) :
    sortKeys l1 = sortKeys l2 := by
  apply List.eq_of_perm_of_sorted ?_ (sorted_sortKeys l1) (sorted_sortKeys l2)
  refine (List.perm_ext_iff_of_nodup (nodup_sortKeys l1) (nodup_sortKeys l2)).mpr ?_
  intro k
  rw [mem_sortKeys, mem_sortKeys]
  exact h k

lemma map_fst_map_pair {β : Type} (f : Key → β) :
    ∀ l : List Key, ((l.map fun k => (k, f k)).map Prod.fst) = l
  | [] => rfl
  | a :: l => by
    simp only [List.map_cons]
    rw [map_fst_map_pair f l]

lemma alignSub_keys (s1 s2 : List (Key × ℚ)) :
    (alignSub s1 s2).map Prod.fst
      = sortKeys (s1.map Prod.fst ++ s2.map Prod.fst) := by
  unfold alignSub
  exact map_fst_map_pair _ _

lemma grpSeries_keys (rows : List RowR) (p : RowR → Bool) :
    (grpSeries rows p).map Prod.fst
      = sortKeys ((rows.filter p).map keyOfR) := by
  unfold grpSeries
  exact map_fst_map_pair _ _

lemma alookup_map_pair {β : Type} (f : Key → β) (k : Key) :
    ∀ l : List Key,
      alookup k (l.map fun k2 => (k2, f k2)) =
        if k ∈ l then some (f k) else none
  | [] => by simp [alookup]
  | a :: l => by
    simp only [List.map_cons, alookup]
    by_cases hak : a = k
    · subst hak
      simp
    · rw [if_neg hak, alookup_map_pair f k l]
      exact if_congr
        ⟨fun hx => List.mem_cons_of_mem a hx,
         fun hx => (List.mem_cons.mp hx).resolve_left
           (fun he => absurd he.symm hak)⟩ rfl rfl

lemma alookup_grpSeries (rows : List RowR) (p : RowR → Bool) (k : Key) :
    alookup k (grpSeries rows p) =
      if k ∈ (rows.filter p).map keyOfR then some (grpMean rows p k)
      else none := by
  unfold grpSeries
  rw [alookup_map_pair]
  by_cases h : k ∈ (rows.filter p).map keyOfR
  · rw [if_pos (mem_sortKeys.mpr h), if_pos h]
  · rw [if_neg (fun hc => h (mem_sortKeys.mp hc)), if_neg h]

lemma alookup_alignSub (s1 s2 : List (Key × ℚ)) (k : Key) :
    alookup k (alignSub s1 s2) =
      if k ∈ s1.map Prod.fst ∨ k ∈ s2.map Prod.fst then
        some (match alookup k s1, alookup k s2 with
          | some a, some b => some (a - b)
          | _, _ => none)
      else none := by
  unfold alignSub
  rw [alookup_map_pair]
  by_cases h : k ∈ s1.map Prod.fst ∨ k ∈ s2.map Prod.fst
  · rw [if_pos (mem_sortKeys.mpr (List.mem_append.mpr h)), if_pos h]
  · rw [if_neg (fun hc => h (List.mem_append.mp (mem_sortKeys.mp hc))),
      if_neg h]

lemma mem_filter_map_key {rows : List RowR} {p : RowR → Bool} {k : Key} :
    k ∈ (rows.filter p).map keyOfR ↔ ∃ r ∈ rows, p r ∧ keyOfR r = k := by
  simp only [List.mem_map, List.mem_filter]
  constructor
  · rintro ⟨r, ⟨hr, hp⟩, hk⟩
    exact ⟨r, hr, hp, hk⟩
  · rintro ⟨r, hr, hp, hk⟩
    exact ⟨r, ⟨hr, hp⟩, hk⟩

lemma grp_ne_nil_iff (rows : List RowR) (p : RowR → Bool) (k : Key) :
    grp rows p k ≠ [] ↔ k ∈ (rows.filter p).map keyOfR := by
  rw [mem_filter_map_key]
  unfold grp
  constructor
  · intro h
    cases hl : rows.filter (fun r => p r && keyOfR r == k) with
    | nil => exact absurd hl h
    | cons r rest =>
      have hmem : r ∈ rows.filter (fun r => p r && keyOfR r == k) := by
        rw [hl]
        exact List.mem_cons_self r rest
      have hrf := List.mem_filter.mp hmem
      refine ⟨r, hrf.1, (Bool.and_eq_true_iff.mp hrf.2).1, ?_⟩
      exact eq_of_beq (Bool.and_eq_true_iff.mp hrf.2).2
  · rintro ⟨r, hr, hp, hk⟩
    intro hnil
    have hmem : r ∈ rows.filter (fun r => p r && keyOfR r == k) :=
      List.mem_filter.mpr ⟨hr, by simp [hp, hk]⟩
    rw [hnil] at hmem
    exact absurd hmem (List.not_mem_nil r)

lemma zip_pairs_fst :
    ∀ (s1 s2 : List (Key × Option ℚ)), s1.length = s2.length →
      (((s1.zip s2).map fun pr => (pr.1.1, optGt pr.1.2 pr.2.2)).map Prod.fst)
        = s1.map Prod.fst
  | [], _, _ => rfl
  | a :: s1, b :: s2, h => by
    simp only [List.zip_cons_cons, List.map_cons]
    rw [zip_pairs_fst s1 s2 (by simpa using h)]
  | a :: s1, [], h => by simp at h

lemma analyzer_inv {stream : Nat → Nat → Bool} {nn : Nat} {df : List Row}
    {a : Artifact} (h : analyzer stream nn df = some a) :
    (g_car_prd (assign_g_rd stream nn df)).map Prod.fst
      = (g_rd_car_prd (assign_g_rd stream nn df)).map Prod.fst ∧
    a = ⟨toString nn ++ ".csv", "bool_" ++ toString nn,
      ((g_car_prd (assign_g_rd stream nn df)).zip
          (g_rd_car_prd (assign_g_rd stream nn df))).map
        fun pr => (pr.1.1, optGt pr.1.2 pr.2.2)⟩ := by
  simp only [analyzer, seriesGt] at h
  by_cases hc : (g_car_prd (assign_g_rd stream nn df)).map Prod.fst
      = (g_rd_car_prd (assign_g_rd stream nn df)).map Prod.fst
  · rw [if_pos hc] at h
    injection h with h
    exact ⟨hc, h.symm⟩
  · rw [if_neg hc] at h
    simp at h

lemma assignAux_base (s : Nat → Nat → Bool) (nn : Nat) (u : List Int) :
    ∀ (df pre : List Row),
      (assignAux s nn u pre df).map
        (fun rr => (⟨rr.fyear, rr.prd, rr.g, rr.car_prd⟩ : Row)) = df
  | [], _ => rfl
  | r :: rest, pre => by
    rw [assignAux]
    simp only [List.map_cons]
    rw [assignAux_base s nn u rest (pre ++ [r])]
    rfl

lemma assign_keys (s : Nat → Nat → Bool) (nn : Nat) (df : List Row) :
    (assign_g_rd s nn df).map keyOfR = df.map keyOf := by
  conv_rhs => rw [← assignAux_base s nn (uniqFA (df.map (·.fyear))) df []]
  rw [List.map_map]
  rfl

lemma exists_g_split (rows : List RowR) (k : Key) :
    ((∃ r ∈ rows, gT r ∧ keyOfR r = k) ∨ (∃ r ∈ rows, gF r ∧ keyOfR r = k))
      ↔ ∃ r ∈ rows, keyOfR r = k := by
  constructor
  · rintro (⟨r, hr, _, hk⟩ | ⟨r, hr, _, hk⟩) <;> exact ⟨r, hr, hk⟩
  · rintro ⟨r, hr, hk⟩
    cases hg : r.g
    · exact Or.inr ⟨r, hr, by simp [gF, hg], hk⟩
    · exact Or.inl ⟨r, hr, by simp [gT, hg], hk⟩

lemma exists_grd_split (rows : List RowR) (k : Key)
    (hall : ∀ r ∈ rows, r.g_rd.isSome) :
    ((∃ r ∈ rows, gr1 r ∧ keyOfR r = k) ∨ (∃ r ∈ rows, gr0 r ∧ keyOfR r = k))
      ↔ ∃ r ∈ rows, keyOfR r = k := by
  constructor
  · rintro (⟨r, hr, _, hk⟩ | ⟨r, hr, _, hk⟩) <;> exact ⟨r, hr, hk⟩
  · rintro ⟨r, hr, hk⟩
    have hs := hall r hr
    cases hg : r.g_rd with
    | none =>
      rw [hg] at hs
      simp at hs
    | some b =>
      cases b
      · exact Or.inr ⟨r, hr, by simp [gr0, hg], hk⟩
      · exact Or.inl ⟨r, hr, by simp [gr1, hg], hk⟩

lemma mem_g_car_prd_keys (rows : List RowR) (k : Key) :
    k ∈ (g_car_prd rows).map Prod.fst ↔ ∃ r ∈ rows, keyOfR r = k := by
  unfold g_car_prd
  rw [alignSub_keys, mem_sortKeys, List.mem_append, grpSeries_keys,
    grpSeries_keys, mem_sortKeys, mem_sortKeys, mem_filter_map_key,
    mem_filter_map_key]
  exact exists_g_split rows k

lemma mem_g_rd_car_prd_keys (rows : List RowR) (k : Key)
    (hall : ∀ r ∈ rows, r.g_rd.isSome) :
    k ∈ (g_rd_car_prd rows).map Prod.fst ↔ ∃ r ∈ rows, keyOfR r = k := by
  unfold g_rd_car_prd
  rw [alignSub_keys, mem_sortKeys, List.mem_append, grpSeries_keys,
    grpSeries_keys, mem_sortKeys, mem_sortKeys, mem_filter_map_key,
    mem_filter_map_key]
  exact exists_grd_split rows k hall

lemma assigned_isSome (stream : Nat → Nat → Bool) (nn : Nat) (df : List Row)
    (h : ∀ r ∈ df, r.prd = 1 ∨ r.prd = 2 ∨ r.prd = 3) :
    ∀ rr ∈ assign_g_rd stream nn df, rr.g_rd.isSome := by
  intro rr hrr
  rw [assignAux_g_rd stream nn _ df [] rr hrr]
  have hbase := assignAux_base stream nn (uniqFA (df.map (·.fyear))) df []
  have hmem : (⟨rr.fyear, rr.prd, rr.g, rr.car_prd⟩ : Row) ∈ df := by
    rw [← hbase]
    exact List.mem_map_of_mem _ hrr
  simpa using h _ hmem

lemma artifact_keys_mem {stream : Nat → Nat → Bool} {nn : Nat}
    {df : List Row} {a : Artifact} (h : analyzer stream nn df = some a)
    (k : Key) :
    k ∈ a.rows.map Prod.fst ↔ ∃ r ∈ df, r.fyear = k.1 ∧ r.prd = k.2 := by
  obtain ⟨hc, ha⟩ := analyzer_inv h
  have hlen : (g_car_prd (assign_g_rd stream nn df)).length
      = (g_rd_car_prd (assign_g_rd stream nn df)).length := by
    have hl := congrArg List.length hc
    simpa using hl
  have hrows : a.rows.map Prod.fst
      = (g_car_prd (assign_g_rd stream nn df)).map Prod.fst := by
    rw [ha]
    exact zip_pairs_fst _ _ hlen
  rw [hrows, mem_g_car_prd_keys]
  constructor
  · rintro ⟨rr, hrr, hk⟩
    subst hk
    refine ⟨⟨rr.fyear, rr.prd, rr.g, rr.car_prd⟩, ?_, rfl, rfl⟩
    rw [← assignAux_base stream nn (uniqFA (df.map (·.fyear))) df []]
    exact List.mem_map_of_mem _ hrr
  · rintro ⟨r, hr, h1, h2⟩
    have hmem : k ∈ df.map keyOf := List.mem_map.mpr ⟨r, hr, by
      rw [keyOf, h1, h2]⟩
    rw [← assign_keys stream nn df] at hmem
    exact List.mem_map.mp hmem

/-- C4, amended.  The stratum keys of a trial result are exactly the
(period, subperiod) pairs carried by at least one panel row, regardless of
which treatment values are represented there; one-sided strata stay in the
artifact with a False indicator. -/
theorem trial_keys_eq_panel_strata (stream : Nat → Nat → Bool) (nn : Nat)
    (df : List Row) (a : Artifact) (h : analyzer stream nn df = some a)
    (k : Key) :
    k ∈ a.rows.map Prod.fst ↔ ∃ r ∈ df, r.fyear = k.1 ∧ r.prd = k.2 :=
  artifact_keys_mem h k

/-- Witness for the amended C4 on the concrete panel P2. -/
theorem trial_keys_eq_panel_strata_witness :
    ((2000, 1) ∈ (Artifact.mk "0.csv" "bool_0"
      [((2000, 1), false)]).rows.map Prod.fst
      ↔ ∃ r ∈ P2, r.fyear = 2000 ∧ r.prd = 1) :=
  trial_keys_eq_panel_strata sT 0 P2 _ (by decide) (2000, 1)

lemma alignSub_grpSeries_join (rows : List RowR) (p q : RowR → Bool)
    (k : Key) :
    (alookup k (alignSub (grpSeries rows p) (grpSeries rows q))).join
      = if grp rows p k ≠ [] ∧ grp rows q k ≠ []
        then some (grpMean rows p k - grpMean rows q k) else none := by
  rw [alookup_alignSub]
  by_cases h1 : k ∈ (rows.filter p).map keyOfR
  · by_cases h2 : k ∈ (rows.filter q).map keyOfR
    · rw [if_pos (Or.inl (by rw [grpSeries_keys, mem_sortKeys]; exact h1))]
      rw [alookup_grpSeries, alookup_grpSeries, if_pos h1, if_pos h2]
      rw [if_pos ⟨(grp_ne_nil_iff rows p k).mpr h1,
        (grp_ne_nil_iff rows q k).mpr h2⟩]
      rfl
    · have hq : ¬ grp rows q k ≠ [] :=
        fun hg => h2 ((grp_ne_nil_iff rows q k).mp hg)
      rw [if_neg (c := grp rows p k ≠ [] ∧ grp rows q k ≠ []) (fun hand => hq hand.2)]
      rw [alookup_grpSeries, alookup_grpSeries, if_pos h1, if_neg h2]
      by_cases hc : k ∈ (grpSeries rows p).map Prod.fst
          ∨ k ∈ (grpSeries rows q).map Prod.fst
      · rw [if_pos hc]
        rfl
      · rw [if_neg hc]
        rfl
  · have hp : ¬ grp rows p k ≠ [] :=
      fun hg => h1 ((grp_ne_nil_iff rows p k).mp hg)
    rw [if_neg (c := grp rows p k ≠ [] ∧ grp rows q k ≠ []) (fun hand => hp hand.1)]
    rw [alookup_grpSeries, if_neg h1]
    by_cases hc : k ∈ (grpSeries rows p).map Prod.fst
        ∨ k ∈ (grpSeries rows q).map Prod.fst
    · rw [if_pos hc]
      rfl
    · rw [if_neg hc]
      rfl

/-- C7.  Per stratum, the actual spread equals the arithmetic mean of the
outcome over the treatment 1 rows minus the mean over the treatment 0
rows, the hypothetical spread is the same formula with the hypothetical
label, and an empty group on either side makes the spread undefined for
that stratum. -/
theorem spread_formula (rows : List RowR) (k : Key) :
    (grp rows gT k ≠ [] → grp rows gF k ≠ [] →
      spreadAt rows k = some (grpMean rows gT k - grpMean rows gF k)) ∧
    ((grp rows gT k = [] ∨ grp rows gF k = []) → spreadAt rows k = none) ∧
    (grp rows gr1 k ≠ [] → grp rows gr0 k ≠ [] →
      hypoSpreadAt rows k
        = some (grpMean rows gr1 k - grpMean rows gr0 k)) ∧
    ((grp rows gr1 k = [] ∨ grp rows gr0 k = []) →
      hypoSpreadAt rows k = none) := by
  have hA := alignSub_grpSeries_join rows gT gF k
  have hH := alignSub_grpSeries_join rows gr1 gr0 k
  refine ⟨?_, ?_, ?_, ?_⟩
  · intro h1 h2
    rw [if_pos ⟨h1, h2⟩] at hA
    exact hA
  · intro h
    have hcond : ¬(grp rows gT k ≠ [] ∧ grp rows gF k ≠ []) := by
      rcases h with h | h
      · exact fun hand => hand.1 h
      · exact fun hand => hand.2 h
    rw [if_neg hcond] at hA
    exact hA
  · intro h1 h2
    rw [if_pos ⟨h1, h2⟩] at hH
    exact hH
  · intro h
    have hcond : ¬(grp rows gr1 k ≠ [] ∧ grp rows gr0 k ≠ []) := by
      rcases h with h | h
      · exact fun hand => hand.1 h
      · exact fun hand => hand.2 h
    rw [if_neg hcond] at hH
    exact hH

/-- Witness for C7 on a concrete relabeled panel with both groups present:
both spreads evaluate to 1 - 3. -/
theorem spread_formula_witness :
    spreadAt RRc (2000, 1) = some (-2) ∧
    hypoSpreadAt RRc (2000, 1) = some (-2) := by
  have h1 := (spread_formula RRc (2000, 1)).1 (by decide) (by decide)
  have h2 := (spread_formula RRc (2000, 1)).2.2.1 (by decide) (by decide)
  constructor
  · rw [h1]
    decide
  · rw [h2]
    decide

lemma sameStratumR_toRowR (fy p : Int) (r : Row) (b : Option Bool) :
    sameStratumR fy p (toRowR r b) = sameStratum fy p r := rfl

lemma assignAux_stratum (s : Nat → Nat → Bool) (nn : Nat) (u : List Int)
    (fy p : Int) (hp : p = 1 ∨ p = 2 ∨ p = 3) :
    ∀ (df pre : List Row),
      ((assignAux s nn u pre df).filter (sameStratumR fy p)).map (·.g_rd)
        = (List.range' ((pre.filter (sameStratum fy p)).length)
            ((df.filter (sameStratum fy p)).length)).map
          (fun i => some (s (seedOf nn (rankOf u fy) (p - 1).toNat) i))
  | [], pre => by simp [assignAux]
  | r :: rest, pre => by
    by_cases hs : sameStratum fy p r = true
    · have hf : r.fyear = fy := eq_of_beq (Bool.and_eq_true_iff.mp hs).1
      have hprd : r.prd = p := eq_of_beq (Bool.and_eq_true_iff.mp hs).2
      have hpre : ((pre ++ [r]).filter (sameStratum fy p)).length
          = (pre.filter (sameStratum fy p)).length + 1 := by
        rw [List.filter_append]
        simp [hs]
      simp only [assignAux, List.filter_cons, sameStratumR_toRowR, hs,
        if_true, List.map_cons, List.length_cons]
      rw [assignAux_stratum s nn u fy p hp rest (pre ++ [r]), hpre]
      rw [hf, hprd, if_pos hp]
      rw [List.range'_succ, List.map_cons]
      rfl
    · have hpre : ((pre ++ [r]).filter (sameStratum fy p)).length
          = (pre.filter (sameStratum fy p)).length := by
        rw [List.filter_append]
        simp [hs]
      simp only [assignAux, List.filter_cons, sameStratumR_toRowR, hs,
        Bool.false_eq_true, if_false]
      rw [assignAux_stratum s nn u fy p hp rest (pre ++ [r]), hpre]

/-- C8.  For a stratum whose subperiod lies in {1, 2, 3}, the hypothetical
labels of its rows, in the original row order of the panel, are exactly
the first `count` binary draws of the generator seeded with the derived
seed, where `count` is the row count of the stratum: the vector has the
length of the stratum, its entries are binary draws from the seeded
generator, and it is assigned row-aligned. -/
theorem g_rd_vector_row_aligned (stream : Nat → Nat → Bool) (nn : Nat)
    (df : List Row) (fy p : Int) (hp : p = 1 ∨ p = 2 ∨ p = 3) :
    ((assign_g_rd stream nn df).filter (sameStratumR fy p)).map (·.g_rd)
      = (List.range ((df.filter (sameStratum fy p)).length)).map
        (fun i => some (stream
          (seedOf nn (rankOf (uniqFA (df.map (·.fyear))) fy)
            (p - 1).toNat) i)) := by
  have h := assignAux_stratum stream nn (uniqFA (df.map (·.fyear))) fy p hp
    df []
  rw [List.range_eq_range']
  simpa using h

/-- Witness for C8 on the concrete panel P2 at trial 2: both rows of
stratum (2000, 1) receive the draws of seed 200 at positions 0 and 1. -/
theorem g_rd_vector_row_aligned_witness :
    ((assign_g_rd sA 2 P2).filter (sameStratumR 2000 1)).map (·.g_rd)
      = (List.range 2).map (fun i => some (sA (seedOf 2 0 0) i)) := by
  have h := g_rd_vector_row_aligned sA 2 P2 2000 1 (Or.inl rfl)
  rw [h]
  decide

lemma g_car_prd_keys_eq (rows : List RowR) :
    (g_car_prd rows).map Prod.fst
      = sortKeys ((grpSeries rows gT).map Prod.fst
          ++ (grpSeries rows gF).map Prod.fst) := by
  unfold g_car_prd
  exact alignSub_keys _ _

lemma g_rd_car_prd_keys_eq (rows : List RowR) :
    (g_rd_car_prd rows).map Prod.fst
      = sortKeys ((grpSeries rows gr1).map Prod.fst
          ++ (grpSeries rows gr0).map Prod.fst) := by
  unfold g_rd_car_prd
  exact alignSub_keys _ _

lemma analyzer_succeeds (stream : Nat → Nat → Bool) (nn : Nat)
    (df : List Row) (h : ∀ r ∈ df, r.prd = 1 ∨ r.prd = 2 ∨ r.prd = 3) :
    analyzer stream nn df
      = some ⟨toString nn ++ ".csv", "bool_" ++ toString nn,
        ((g_car_prd (assign_g_rd stream nn df)).zip
            (g_rd_car_prd (assign_g_rd stream nn df))).map
          fun pr => (pr.1.1, optGt pr.1.2 pr.2.2)⟩ := by
  have hall : ∀ rr ∈ assign_g_rd stream nn df, rr.g_rd.isSome :=
    assigned_isSome stream nn df h
  have hmemiff : ∀ k : Key,
      k ∈ (g_car_prd (assign_g_rd stream nn df)).map Prod.fst
      ↔ k ∈ (g_rd_car_prd (assign_g_rd stream nn df)).map Prod.fst := by
    intro k
    rw [mem_g_car_prd_keys, mem_g_rd_car_prd_keys _ _ hall]
  have hc : (g_car_prd (assign_g_rd stream nn df)).map Prod.fst
      = (g_rd_car_prd (assign_g_rd stream nn df)).map Prod.fst := by
    rw [g_car_prd_keys_eq, g_rd_car_prd_keys_eq]
    apply sortKeys_eq_of_mem_iff
    intro k
    have hk := hmemiff k
    rw [g_car_prd_keys_eq, g_rd_car_prd_keys_eq, mem_sortKeys,
      mem_sortKeys] at hk
    exact hk
  simp only [analyzer, seriesGt]
  rw [if_pos hc]

/-- C9.  On a panel whose subperiods all lie in {1, 2, 3}, each trial
writes exactly one artifact; its file name is the trial index followed by
`.csv`, its indicator column is `bool_` followed by the trial index, and
it carries exactly one row per stratum of the panel (the keys are distinct
and range over exactly the panel's (fyear, prd) pairs). -/
theorem analyzer_writes_one_artifact (stream : Nat → Nat → Bool) (nn : Nat)
    (df : List Row) (h : ∀ r ∈ df, r.prd = 1 ∨ r.prd = 2 ∨ r.prd = 3) :
    ∃ a, analyzerWrites stream nn df = [a] ∧
      a.fname = toString nn ++ ".csv" ∧
      a.boolcol = "bool_" ++ toString nn ∧
      (a.rows.map Prod.fst).Nodup ∧
      (∀ k : Key, k ∈ a.rows.map Prod.fst ↔ k ∈ df.map keyOf) := by
  have han := analyzer_succeeds stream nn df h
  have hc := (analyzer_inv han).1
  have hlen : (g_car_prd (assign_g_rd stream nn df)).length
      = (g_rd_car_prd (assign_g_rd stream nn df)).length := by
    have hl := congrArg List.length hc
    simpa using hl
  have hrows := zip_pairs_fst (g_car_prd (assign_g_rd stream nn df))
    (g_rd_car_prd (assign_g_rd stream nn df)) hlen
  refine ⟨⟨toString nn ++ ".csv", "bool_" ++ toString nn,
    ((g_car_prd (assign_g_rd stream nn df)).zip
        (g_rd_car_prd (assign_g_rd stream nn df))).map
      fun pr => (pr.1.1, optGt pr.1.2 pr.2.2)⟩, ?_, rfl, rfl, ?_, ?_⟩
  · unfold analyzerWrites
    rw [han]
    rfl
  · rw [hrows, g_car_prd_keys_eq]
    exact nodup_sortKeys _
  · intro k
    rw [hrows, mem_g_car_prd_keys, ← assign_keys stream nn df]
    exact (List.mem_map).symm

/-- Witness for C9 on the concrete panel P2 at trial 7. -/
theorem analyzer_writes_one_artifact_witness :
    ∃ a, analyzerWrites sA 7 P2 = [a] ∧
      a.fname = toString 7 ++ ".csv" ∧
      a.boolcol = "bool_" ++ toString 7 ∧
      (a.rows.map Prod.fst).Nodup ∧
      (∀ k : Key, k ∈ a.rows.map Prod.fst ↔ k ∈ P2.map keyOf) :=
  analyzer_writes_one_artifact sA 7 P2 (by decide)

end BB19
